import Mathlib

/-!
# Verification of the GTFS feed-to-segment pipeline (`src/main.py`)

Shallow embedding of the pipeline in `main.py`:

* `load_gtfs_from_directory` — modelled by `FeedDir`/`GTFSFiles`: each of the
  four required tables is `some table` when the file is present and parses,
  `none` otherwise.
* `extract_segments` — merge of `stop_times` with `trips` (pandas left join on
  `trip_id`), stable sort by `['trip_id', 'stop_sequence']`, groupby
  `trip_id`, and a `Counter` over the tuple of `stop_id`s of each group.
* `plot_routes_on_map` — the same join/sort/group shape with `stops`
  coordinates joined in, producing a map object with a center (mean of the
  stops' coordinates), a fixed zoom, and one polyline per trip with at least
  one fully resolved coordinate pair.
* `analyze_gtfs_feeds` — iterates feed directories, saving one artifact per
  feed whose map generation succeeds.

Modelling conventions: CSV identifier values are modelled as `Nat` (the code
only ever uses their equality and ordering); `stop_sequence` is `Int`;
floating-point coordinates are modelled as exact rationals `ℚ`, with a missing
(NaN) cell as `none`.  pandas `sort_values` over several columns performs a
stable lexicographic sort (numpy `lexsort`); it is modelled by the canonical
stable sort `sortByKey`: blocks of equal keys in ascending key order, each
block in original row order.  pandas `groupby` iterates groups in ascending
key order, each group holding its rows in frame order; Python's `Counter` is
an insertion-ordered association list.  Python exceptions that the code
catches locally (`KeyError` in `extract_segments`) are modelled by the
corresponding `Option` match, with the printed diagnostics returned
explicitly.
-/

/-- A row of `stop_times.txt` (columns used by the code). -/
structure StopTimeRow where
  trip_id : Nat
  stop_id : Nat
  stop_sequence : Int
deriving DecidableEq, Repr

/-- A row of `trips.txt` (columns used by the code). -/
structure TripRow where
  trip_id : Nat
  route_id : Nat
deriving DecidableEq, Repr

/-- A row of `routes.txt`; its content is never read by the pipeline. -/
structure RouteRow where
  route_id : Nat
deriving DecidableEq, Repr

/-- A row of `stops.txt`; a `none` coordinate models a NaN cell. -/
structure StopRow where
  stop_id : Nat
  stop_lat : Option ℚ
  stop_lon : Option ℚ
deriving DecidableEq, Repr

/-- The `stops.txt` table: `hasLat`/`hasLon` model the presence of the
`stop_lat`/`stop_lon` columns in the DataFrame. -/
structure StopsTable where
  hasLat : Bool
  hasLon : Bool
  rows : List StopRow
deriving DecidableEq, Repr

/-- The dictionary returned by `load_gtfs_from_directory`: a table is `none`
when its file is absent or failed to parse (and was therefore omitted). -/
structure GTFSFiles where
  trips : Option (List TripRow)
  stop_times : Option (List StopTimeRow)
  routes : Option (List RouteRow)
  stops : Option StopsTable
deriving DecidableEq, Repr

/-- A feed directory as seen by `analyze_gtfs_feeds`. -/
structure FeedDir where
  basename : String
  files : GTFSFiles
deriving DecidableEq, Repr

/-- The row type of `pd.merge(stop_times, trips[['trip_id','route_id']],
on='trip_id', how='left')`: `route_id` is `none` on an unmatched left row. -/
structure TripStopRow where
  trip_id : Nat
  stop_sequence : Int
  stop_id : Nat
  route_id : Option Nat
deriving DecidableEq, Repr

/-- The rows a single `stop_times` row contributes to the pandas left join
onto `trips` on `trip_id`: one output row per matching `trips` row, or a
single row with a null `route_id` when no `trips` row matches. -/
def mergeRow (ts : List TripRow) (st : StopTimeRow) : List TripStopRow :=
  if (ts.filter fun t => t.trip_id = st.trip_id).isEmpty then
    [⟨st.trip_id, st.stop_sequence, st.stop_id, none⟩]
  else
    (ts.filter fun t => t.trip_id = st.trip_id).map
      fun t => ⟨st.trip_id, st.stop_sequence, st.stop_id, some t.route_id⟩

/-- pandas left join of `stop_times` onto `trips` on `trip_id`, left rows in
order. -/
def mergeLeft (sts : List StopTimeRow) (ts : List TripRow) : List TripStopRow :=
  sts.flatMap (mergeRow ts)

/-- Lexicographic order on the sort key `(trip_id, stop_sequence)`, the
comparison used by `sort_values(by=['trip_id', 'stop_sequence'])`. -/
def lexLe (a b : Nat × Int) : Prop :=
  a.1 < b.1 ∨ (a.1 = b.1 ∧ a.2 ≤ b.2)

instance : DecidableRel lexLe := fun a b =>
  decidable_of_iff (a.1 < b.1 ∨ (a.1 = b.1 ∧ a.2 ≤ b.2)) Iff.rfl

instance : IsTotal (Nat × Int) lexLe where
  total a b := by
    rcases Nat.lt_trichotomy a.1 b.1 with h | h | h
    · exact Or.inl (Or.inl h)
    · rcases le_total a.2 b.2 with h2 | h2
      · exact Or.inl (Or.inr ⟨h, h2⟩)
      · exact Or.inr (Or.inr ⟨h.symm, h2⟩)
    · exact Or.inr (Or.inl h)

instance : IsTrans (Nat × Int) lexLe where
  trans a b c hab hbc := by
    rcases hab with h1 | ⟨h1, h1'⟩ <;> rcases hbc with h2 | ⟨h2, h2'⟩
    · exact Or.inl (h1.trans h2)
    · exact Or.inl (h2 ▸ h1)
    · exact Or.inl (h1 ▸ h2)
    · exact Or.inr ⟨h1.trans h2, h1'.trans h2'⟩

instance : IsAntisymm (Nat × Int) lexLe where
  antisymm a b hab hba := by
    rcases hab with h1 | ⟨h1, h1'⟩ <;> rcases hba with h2 | ⟨h2, h2'⟩
    · exact absurd (h1.trans h2) (lt_irrefl _)
    · exact absurd h1 (h2 ▸ lt_irrefl _)
    · exact absurd h2 (h1 ▸ lt_irrefl _)
    · exact Prod.ext h1 (le_antisymm h1' h2')

/-- Model of `DataFrame.sort_values(by=[c₁, c₂])`: a multi-column pandas sort
is a stable lexicographic sort, i.e. the rows grouped by sort key, blocks in
ascending key order, each block keeping the original row order. -/
def sortByKey {α : Type} (key : α → Nat × Int) (l : List α) : List α :=
  (List.insertionSort lexLe ((l.map key).dedup)).flatMap
    fun k => l.filter fun r => key r = k

/-- Model of `DataFrame.groupby(c)` on a `Nat`-valued column: pandas iterates
the groups in ascending key order and each group holds its rows in frame
order. -/
def groupByCol {α : Type} (col : α → Nat) (l : List α) : List (Nat × List α) :=
  (List.insertionSort (· ≤ ·) ((l.map col).dedup)).map
    fun t => (t, l.filter fun r => col r = t)

/-- A segment: the ordered tuple of `stop_id`s visited by one trip. -/
abbrev Segment := List Nat

/-- Python's `collections.Counter` over segment keys, as the insertion-ordered
association list a `dict` is. -/
abbrev SegCounter := List (Segment × Nat)

/-- `counter[k] += 1`: bump an existing key in place, else append it with
count 1 (dict insertion order). -/
def ctrIncr (c : SegCounter) (k : Segment) : SegCounter :=
  match c with
  | [] => [(k, 1)]
  | (a, n) :: rest => if a = k then (a, n + 1) :: rest else (a, n) :: ctrIncr rest k

/-- `counter[k]` with the Counter default of 0 for an absent key. -/
def ctrCount (c : SegCounter) (k : Segment) : Nat :=
  match c with
  | [] => 0
  | (a, n) :: rest => if a = k then n else ctrCount rest k

/-- The sum of all counts in a counter (`sum(counter.values())`). -/
def ctrTotal (c : SegCounter) : Nat :=
  (c.map (·.2)).sum

/-- The sort key of a merged trip/stop row. -/
def tsKey (r : TripStopRow) : Nat × Int :=
  (r.trip_id, r.stop_sequence)

/-- The columns of a merged row that segment extraction reads: the sort key
and the `stop_id` — everything except `route_id`. -/
def tsCore (r : TripStopRow) : (Nat × Int) × Nat :=
  ((r.trip_id, r.stop_sequence), r.stop_id)

/-- The merged `trip_stop_times` frame of `extract_segments` after its
`sort_values(by=['trip_id', 'stop_sequence'])`. -/
def sortedMerged (sts : List StopTimeRow) (ts : List TripRow) : List TripStopRow :=
  sortByKey tsKey (mergeLeft sts ts)

/-- The ordered `stop_id` tuple the groupby of `extract_segments` produces for
trip `t`: its rows in the sorted frame, projected to `stop_id`. -/
def tripSegment (sts : List StopTimeRow) (ts : List TripRow) (t : Nat) : Segment :=
  ((sortedMerged sts ts).filter fun r => r.trip_id = t).map (·.stop_id)

/-- What `extract_segments` returns together with what it prints. -/
structure SegResult where
  counts : SegCounter
  diags : List String
deriving DecidableEq, Repr

/-- The segment counter built over the trip groups of the sorted frame. -/
def segCounterOf (sts : List StopTimeRow) (ts : List TripRow) : SegCounter :=
  (groupByCol (·.trip_id) (sortedMerged sts ts)).foldl
    (fun c p => ctrIncr c (p.2.map (·.stop_id))) []

/-- `extract_segments(gtfs_files)`: the three table accesses in source order
(a missing one raises `KeyError`, caught to print an error and return an
empty `Counter`), then merge, sort, group and count. -/
def extract_segments (g : GTFSFiles) : SegResult :=
  match g.trips with
  | none => ⟨[], ["Error: Missing required file 'trips.txt' in GTFS data"]⟩
  | some ts =>
    match g.stop_times with
    | none => ⟨[], ["Error: Missing required file 'stop_times.txt' in GTFS data"]⟩
    | some sts =>
      match g.routes with
      | none => ⟨[], ["Error: Missing required file 'routes.txt' in GTFS data"]⟩
      | some _ => ⟨segCounterOf sts ts, []⟩

/-- Intermediate row of `pd.merge(stop_times_df, stops_df[['stop_id',
'stop_lat', 'stop_lon']], on='stop_id', how='left')`. -/
structure StopJoinRow where
  trip_id : Nat
  stop_id : Nat
  stop_sequence : Int
  stop_lat : Option ℚ
  stop_lon : Option ℚ
deriving DecidableEq, Repr

/-- Row of the plotting frame after the second merge with
`trips_df[['trip_id','route_id']]`. -/
structure PlotRow where
  trip_id : Nat
  stop_sequence : Int
  stop_id : Nat
  stop_lat : Option ℚ
  stop_lon : Option ℚ
  route_id : Option Nat
deriving DecidableEq, Repr

/-- First plotting merge: left join of `stop_times` onto `stops` on
`stop_id`; unmatched stops yield null coordinates. -/
def mergeStops (sts : List StopTimeRow) (stops : List StopRow) : List StopJoinRow :=
  sts.flatMap fun st =>
    let ms := stops.filter fun s => s.stop_id = st.stop_id
    if ms.isEmpty then [⟨st.trip_id, st.stop_id, st.stop_sequence, none, none⟩]
    else ms.map fun s => ⟨st.trip_id, st.stop_id, st.stop_sequence, s.stop_lat, s.stop_lon⟩

/-- Second plotting merge: left join onto `trips` on `trip_id`. -/
def mergeTripsPlot (l : List StopJoinRow) (ts : List TripRow) : List PlotRow :=
  l.flatMap fun r =>
    let ms := ts.filter fun t => t.trip_id = r.trip_id
    if ms.isEmpty then [⟨r.trip_id, r.stop_sequence, r.stop_id, r.stop_lat, r.stop_lon, none⟩]
    else ms.map fun t => ⟨r.trip_id, r.stop_sequence, r.stop_id, r.stop_lat, r.stop_lon, some t.route_id⟩

/-- The sort key of a plotting row. -/
def prKey (r : PlotRow) : Nat × Int :=
  (r.trip_id, r.stop_sequence)

/-- `Series.mean()` with pandas' default `skipna=True`: the mean of the
non-null cells, `none` (NaN) when there is no such cell. -/
def meanOpt (l : List (Option ℚ)) : Option ℚ :=
  if (l.filterMap id).length = 0 then none
  else some ((l.filterMap id).sum / ((l.filterMap id).length : ℚ))

/-- The folium map object: its center, `zoom_start`, and polylines. -/
structure MapObj where
  center : Option ℚ × Option ℚ
  zoom : Nat
  lines : List (List (ℚ × ℚ))
deriving DecidableEq, Repr

/-- The `(stop_lat, stop_lon)` pairs of a trip group after `dropna()`. -/
def tripCoords (grp : List PlotRow) : List (ℚ × ℚ) :=
  grp.filterMap fun r =>
    match r.stop_lat, r.stop_lon with
    | some a, some b => some (a, b)
    | _, _ => none

/-- `plot_routes_on_map(gtfs_files)`: precondition checks in source order
(`stops.txt` present, its lat/lon columns present, `trips.txt` and
`stop_times.txt` present — `None` otherwise), then the two merges, the
stable sort, the map centered on the stops' mean coordinates with
`zoom_start=12`, and one polyline per trip group with a nonempty coordinate
list. -/
def plot_routes_on_map (g : GTFSFiles) : Option MapObj :=
  match g.stops with
  | none => none
  | some stbl =>
    if stbl.hasLat && stbl.hasLon then
      match g.trips, g.stop_times with
      | some ts, some sts =>
        let sorted := sortByKey prKey (mergeTripsPlot (mergeStops sts stbl.rows) ts)
        let center := (meanOpt (stbl.rows.map (·.stop_lat)), meanOpt (stbl.rows.map (·.stop_lon)))
        let lines := (groupByCol (·.trip_id) sorted).filterMap fun p =>
          let cs := tripCoords p.2
          if cs.isEmpty then none else some cs
        some ⟨center, 12, lines⟩
      | _, _ => none
    else none

/-- One iteration of the `analyze_gtfs_feeds` loop: skip the feed when the
loaded dict is empty (no table at all loaded), otherwise plot; a truthy map
object is saved as `routes_map_<basename>.html`.  The result is the saved
artifact's name, `none` when nothing is saved for this feed. -/
def processFeed (d : FeedDir) : Option String :=
  let g := d.files
  if g.trips.isNone && g.stop_times.isNone && g.routes.isNone && g.stops.isNone then
    none
  else
    match plot_routes_on_map g with
    | some _ => some ("routes_map_" ++ d.basename ++ ".html")
    | none => none

/-- `analyze_gtfs_feeds(gtfs_directories)`: each directory is processed
independently in order; the value of the model is the list of saved map
artifacts. -/
def analyze_gtfs_feeds (ds : List FeedDir) : List String :=
  ds.filterMap processFeed

/-! ## Generic properties of the stable sort `sortByKey` -/

theorem lexLe_refl (a : Nat × Int) : lexLe a a :=
  Or.inr ⟨rfl, le_refl _⟩

theorem sortKeys_nodup {α : Type} (key : α → Nat × Int) (l : List α) :
    (List.insertionSort lexLe ((l.map key).dedup)).Nodup :=
  ((List.perm_insertionSort lexLe _).nodup_iff).2 (List.nodup_dedup _)

theorem mem_sortKeys {α : Type} (key : α → Nat × Int) (l : List α) (k : Nat × Int) :
    k ∈ List.insertionSort lexLe ((l.map key).dedup) ↔ k ∈ l.map key :=
  ((List.perm_insertionSort lexLe _).mem_iff).trans List.mem_dedup

theorem flatMap_filter_blocks {α : Type} (key : α → Nat × Int) (l : List α) :
    ∀ (ks : List (Nat × Int)), ks.Nodup → ∀ k : Nat × Int,
      ((ks.flatMap fun k' => l.filter fun r => key r = k').filter fun r => key r = k)
        = if k ∈ ks then l.filter (fun r => key r = k) else [] := by
  intro ks
  induction ks with
  | nil => simp
  | cons k' ks ih =>
    intro hnd k
    have hk' : k' ∉ ks := (List.nodup_cons.1 hnd).1
    have hks : ks.Nodup := (List.nodup_cons.1 hnd).2
    simp only [List.flatMap_cons, List.filter_append, ih hks k]
    by_cases hkk : k' = k
    · subst hkk
      have h1 : ((l.filter fun r => key r = k').filter fun r => key r = k')
          = l.filter fun r => key r = k' := by
        rw [List.filter_filter]
        apply List.filter_congr
        intro a _
        by_cases h : key a = k' <;> simp [h]
      rw [h1, if_neg hk', if_pos (List.mem_cons_self _ _), List.append_nil]
    · have h1 : ((l.filter fun r => key r = k').filter fun r => key r = k) = [] := by
        rw [List.filter_eq_nil_iff]
        intro a ha
        have h2 : key a = k' := by
          have := (List.mem_filter.1 ha).2
          simpa using this
        simp [h2, hkk]
      rw [h1, List.nil_append]
      have hmem : k ∈ k' :: ks ↔ k ∈ ks := by
        simp [List.mem_cons, Ne.symm hkk, fun h : k = k' => hkk h.symm]
      by_cases hm : k ∈ ks
      · rw [if_pos hm, if_pos (hmem.2 hm)]
      · rw [if_neg hm, if_neg (fun h => hm (hmem.1 h))]

/-- Stability of `sortByKey`: the rows carrying one fixed sort key appear in
the output exactly as they appear in the input (same rows, same relative
order). -/
theorem sortByKey_filter_key {α : Type} (key : α → Nat × Int) (l : List α) (k : Nat × Int) :
    ((sortByKey key l).filter fun r => key r = k) = l.filter fun r => key r = k := by
  unfold sortByKey
  rw [flatMap_filter_blocks key l _ (sortKeys_nodup key l) k]
  by_cases hm : k ∈ List.insertionSort lexLe ((l.map key).dedup)
  · rw [if_pos hm]
  · rw [if_neg hm]
    symm
    rw [List.filter_eq_nil_iff]
    intro a ha hkey
    exact hm ((mem_sortKeys key l k).2 (List.mem_map.2 ⟨a, ha, by simpa using hkey⟩))

theorem count_flatMap_blocks {α : Type} [DecidableEq α] (key : α → Nat × Int) (l : List α) :
    ∀ (ks : List (Nat × Int)), ks.Nodup → ∀ a : α,
      (ks.flatMap fun k' => l.filter fun r => key r = k').count a
        = if key a ∈ ks then l.count a else 0 := by
  intro ks
  induction ks with
  | nil => simp
  | cons k' ks ih =>
    intro hnd a
    have hk' : k' ∉ ks := (List.nodup_cons.1 hnd).1
    have hks : ks.Nodup := (List.nodup_cons.1 hnd).2
    simp only [List.flatMap_cons, List.count_append, ih hks a]
    by_cases hka : key a = k'
    · have h1 : (l.filter fun r => key r = k').count a = l.count a :=
        List.count_filter (by simpa using hka)
      have h2 : key a ∉ ks := hka ▸ hk'
      rw [h1, if_neg h2, if_pos (by simp [hka]), Nat.add_zero]
    · have h1 : (l.filter fun r => key r = k').count a = 0 := by
        rw [List.count_eq_zero]
        intro hmem
        exact hka (by simpa using (List.mem_filter.1 hmem).2)
      rw [h1, Nat.zero_add]
      by_cases hm : key a ∈ ks
      · rw [if_pos hm, if_pos (List.mem_cons_of_mem _ hm)]
      · rw [if_neg hm, if_neg (by simp [hka, hm])]

/-- `sortByKey` permutes its input. -/
theorem sortByKey_perm {α : Type} [DecidableEq α] (key : α → Nat × Int) (l : List α) :
    (sortByKey key l).Perm l := by
  rw [List.perm_iff_count]
  intro a
  unfold sortByKey
  rw [count_flatMap_blocks key l _ (sortKeys_nodup key l) a]
  by_cases hm : key a ∈ List.insertionSort lexLe ((l.map key).dedup)
  · rw [if_pos hm]
  · rw [if_neg hm]
    symm
    rw [List.count_eq_zero]
    intro hmem
    exact hm ((mem_sortKeys key l _).2 (List.mem_map_of_mem key hmem))

theorem pairwise_flatMap_blocks {α : Type} (key : α → Nat × Int) (l : List α) :
    ∀ ks : List (Nat × Int), List.Sorted lexLe ks →
      (ks.flatMap fun k' => l.filter fun r => key r = k').Pairwise
        fun x y => lexLe (key x) (key y) := by
  intro ks
  induction ks with
  | nil => simp
  | cons k' ks ih =>
    intro hs
    simp only [List.flatMap_cons]
    rw [List.pairwise_append]
    refine ⟨?_, ih hs.of_cons, ?_⟩
    · apply List.pairwise_of_forall_mem_list
      intro a ha b hb
      have h1 : key a = k' := by simpa using (List.mem_filter.1 ha).2
      have h2 : key b = k' := by simpa using (List.mem_filter.1 hb).2
      rw [h1, h2]
      exact lexLe_refl k'
    · intro x hx y hy
      have h1 : key x = k' := by simpa using (List.mem_filter.1 hx).2
      obtain ⟨k'', hk'', hy'⟩ := List.mem_flatMap.1 hy
      have h2 : key y = k'' := by simpa using (List.mem_filter.1 hy').2
      rw [h1, h2]
      exact List.rel_of_sorted_cons hs k'' hk''

/-- Every pair of rows in `sortByKey`'s output is in (non-strict) key
order. -/
theorem sortByKey_pairwise {α : Type} (key : α → Nat × Int) (l : List α) :
    (sortByKey key l).Pairwise fun x y => lexLe (key x) (key y) := by
  unfold sortByKey
  exact pairwise_flatMap_blocks key l _ (List.sorted_insertionSort lexLe _)

theorem mem_sortByKey {α : Type} (key : α → Nat × Int) (l : List α) (r : α) :
    r ∈ sortByKey key l ↔ r ∈ l := by
  unfold sortByKey
  constructor
  · intro h
    obtain ⟨k, _, hr⟩ := List.mem_flatMap.1 h
    exact (List.mem_filter.1 hr).1
  · intro h
    refine List.mem_flatMap.2 ⟨key r, ?_, List.mem_filter.2 ⟨h, by simp⟩⟩
    exact (mem_sortKeys key l _).2 (List.mem_map_of_mem key h)

/-- Within one `trip_id`, the stably sorted frame carries its
`stop_sequence` values in ascending order. -/
theorem sorted_seq_filter_trip (l : List TripStopRow) (t : Nat) :
    List.Sorted (· ≤ ·)
      (((sortByKey tsKey l).filter fun r => r.trip_id = t).map (·.stop_sequence)) := by
  have hp : ((sortByKey tsKey l).filter fun r => r.trip_id = t).Pairwise
      (fun x y => lexLe (tsKey x) (tsKey y)) :=
    (sortByKey_pairwise tsKey l).sublist (List.filter_sublist _)
  rw [List.Sorted, List.pairwise_map]
  refine hp.imp_of_mem ?_
  intro a b ha hb hab
  have hta : a.trip_id = t := by simpa using (List.mem_filter.1 ha).2
  have htb : b.trip_id = t := by simpa using (List.mem_filter.1 hb).2
  rcases hab with h | ⟨_, h⟩
  · simp only [tsKey] at h
    rw [hta, htb] at h
    exact absurd h (lt_irrefl t)
  · exact h

/-- C7: on every joined `TripStopRow` table, the sorted frame is, within each
`trip_id`, in ascending `stop_sequence` order; rows sharing a full
`(trip_id, stop_sequence)` key appear exactly in their original relative
input order (stability); and the sorted frame is a permutation of the input
rows, so the per-trip ordering is deterministic. -/
theorem c7_tripstop_sort_stable (l : List TripStopRow) :
    (∀ t : Nat, List.Sorted (· ≤ ·)
        (((sortByKey tsKey l).filter fun r => r.trip_id = t).map (·.stop_sequence)))
    ∧ (∀ k : Nat × Int,
        ((sortByKey tsKey l).filter fun r => tsKey r = k) = l.filter fun r => tsKey r = k)
    ∧ (sortByKey tsKey l).Perm l :=
  ⟨fun t => sorted_seq_filter_trip l t,
   fun k => sortByKey_filter_key tsKey l k,
   sortByKey_perm tsKey l⟩

/-! ## Error handling of `extract_segments` and the orchestrator -/

/-- C5: when any of `trips.txt`, `stop_times.txt` or `routes.txt` is absent
from the loaded table set, `extract_segments` returns an empty `Counter` and
prints a missing-file error; the `KeyError` is caught inside the function
(the model returns normally). -/
theorem c5_missing_table_empty (g : GTFSFiles)
    (h : g.trips = none ∨ g.stop_times = none ∨ g.routes = none) :
    (extract_segments g).counts = [] ∧ (extract_segments g).diags ≠ [] := by
  obtain ⟨t, st, r, s⟩ := g
  cases t <;> cases st <;> cases r <;> simp_all [extract_segments]

theorem c5_witness :
    (extract_segments ⟨none, some [], some [], none⟩).counts = []
    ∧ (extract_segments ⟨none, some [], some [], none⟩).diags ≠ [] :=
  c5_missing_table_empty ⟨none, some [], some [], none⟩ (Or.inl rfl)

/-- C4 fails on the code: a trip present in `trips` with zero `stop_times`
rows does not contribute an empty-tuple segment.  With
`trips = [{trip_id := 1, route_id := 5}]` and an empty `stop_times` table the
returned counter is empty and the empty tuple has count 0, not 1 (the left
join keeps only `stop_times` rows, so the trip never reaches the groupby). -/
theorem c4_counterexample :
    (extract_segments ⟨some [⟨1, 5⟩], some [], some [], none⟩).counts = []
    ∧ ctrCount (extract_segments ⟨some [⟨1, 5⟩], some [], some [], none⟩).counts [] ≠ 1 := by
  decide

/-- C9: a feed whose directory is missing `stops.txt` yields no artifact but
does not prevent the next feed from being processed and saved. -/
theorem c9_feed_independence (dA dB : FeedDir) (nm : String)
    (h1 : dA.files.stops = none) (h2 : processFeed dB = some nm) :
    analyze_gtfs_feeds [dA, dB] = [nm] := by
  have hA : processFeed dA = none := by
    simp [processFeed, plot_routes_on_map, h1]
  simp [analyze_gtfs_feeds, List.filterMap_cons, hA, h2]

theorem c9_witness :
    analyze_gtfs_feeds
      [⟨"A", ⟨some [], some [], some [], none⟩⟩,
       ⟨"B", ⟨some [], some [], some [], some ⟨true, true, []⟩⟩⟩]
      = ["routes_map_B.html"] :=
  c9_feed_independence _ _ _ rfl rfl

/-- C6 fails on the code: a feed missing `routes.txt` (so not all four
required tables are present) is not skipped — `plot_routes_on_map` does not
need `routes.txt`, and the feed's map artifact is still produced and saved. -/
theorem c6_counterexample :
    (FeedDir.mk "A" ⟨some [], some [], none, some ⟨true, true, [⟨7, some 10, some 20⟩]⟩⟩).files.routes
        = none
    ∧ analyze_gtfs_feeds
        [⟨"A", ⟨some [], some [], none, some ⟨true, true, [⟨7, some 10, some 20⟩]⟩⟩⟩]
        = ["routes_map_A.html"] :=
  ⟨rfl, rfl⟩

/-- C6 amended: a feed is skipped outright only when no table at all loads;
otherwise rendering is attempted, and an artifact is produced exactly when
`stops.txt` is present with both coordinate columns and `trips.txt` and
`stop_times.txt` are present — in particular a feed missing only
`routes.txt` still gets a map artifact. -/
theorem c6_amended_artifact_condition (d : FeedDir) :
    (processFeed d).isSome
      ↔ ((∃ stbl, d.files.stops = some stbl ∧ stbl.hasLat = true ∧ stbl.hasLon = true)
          ∧ d.files.trips.isSome ∧ d.files.stop_times.isSome) := by
  obtain ⟨nm, t, st, r, s⟩ := d
  rcases s with _ | ⟨hl, ho, rows⟩
  · cases t <;> cases st <;> cases r <;> simp [processFeed, plot_routes_on_map]
  · cases t <;> cases st <;> cases hl <;> cases ho <;>
      simp [processFeed, plot_routes_on_map]

/-! ## The map center -/

theorem filterMap_id_map_some (l : List ℚ) : (l.map some).filterMap id = l := by
  rw [List.filterMap_map]
  simp

theorem meanOpt_map_some (l : List ℚ) (h : l ≠ []) :
    meanOpt (l.map some) = some (l.sum / (l.length : ℚ)) := by
  unfold meanOpt
  rw [filterMap_id_map_some]
  rw [if_neg (fun h0 => h (List.length_eq_zero.1 h0))]

/-- C8: whenever the renderer's preconditions hold and every stop row has
both coordinates, the produced map is centered on the unweighted arithmetic
mean of the stops-table coordinates (trip frequencies play no role) and uses
the fixed default zoom 12. -/
theorem c8_map_center (stbl : StopsTable) (ts : List TripRow) (sts : List StopTimeRow)
    (rts : Option (List RouteRow)) (las los : List ℚ)
    (hl : stbl.hasLat = true) (ho : stbl.hasLon = true)
    (hlas : stbl.rows.map (·.stop_lat) = las.map some)
    (hlos : stbl.rows.map (·.stop_lon) = los.map some)
    (hne : las ≠ []) :
    ((plot_routes_on_map ⟨some ts, some sts, rts, some stbl⟩).map fun m => (m.center, m.zoom))
      = some ((some (las.sum / (las.length : ℚ)), some (los.sum / (los.length : ℚ))), 12) := by
  have hlen : los.length = las.length := by
    have h1 : stbl.rows.length = las.length := by
      have := congrArg List.length hlas; simpa using this
    have h2 : stbl.rows.length = los.length := by
      have := congrArg List.length hlos; simpa using this
    omega
  have hne' : los ≠ [] := by
    intro h0
    apply hne
    rw [← List.length_eq_zero, ← hlen, h0]
    rfl
  simp only [plot_routes_on_map, hl, ho, Bool.and_self, if_true, hlas, hlos,
    meanOpt_map_some las hne, meanOpt_map_some los hne']
  rfl

theorem c8_witness :
    ((plot_routes_on_map ⟨some [], some [],  none, some ⟨true, true,
        [⟨1, some 10, some 20⟩, ⟨2, some 10, some 21⟩]⟩⟩).map fun m => (m.center, m.zoom))
      = some ((some 10, some ((41 : ℚ)/2)), 12) := by
  have h := c8_map_center ⟨true, true, [⟨1, some 10, some 20⟩, ⟨2, some 10, some 21⟩]⟩
      [] [] none [10, 10] [20, 21] rfl rfl rfl rfl (by simp)
  rw [h]
  norm_num

/-! ## Trips without stop_times rows -/

theorem trips_filter_ne_eq (ts : List TripRow) (x t : Nat) (hx : x ≠ t) :
    ((ts.filter fun r => r.trip_id ≠ t).filter fun r => r.trip_id = x)
      = ts.filter fun r => r.trip_id = x := by
  rw [List.filter_filter]
  apply List.filter_congr
  intro a _
  by_cases h : a.trip_id = x
  · simp [h, hx]
  · simp [h]

theorem mergeLeft_drop_tripless (sts : List StopTimeRow) (ts : List TripRow) (t : Nat)
    (habs : t ∉ sts.map (·.trip_id)) :
    mergeLeft sts (ts.filter fun r => r.trip_id ≠ t) = mergeLeft sts ts := by
  induction sts with
  | nil => rfl
  | cons st rest ih =>
    have hst : st.trip_id ≠ t := by
      intro h
      exact habs (List.mem_map.2 ⟨st, List.mem_cons_self _ _, h⟩)
    have habs' : t ∉ rest.map (·.trip_id) := by
      intro h
      apply habs
      obtain ⟨r, hr, hr'⟩ := List.mem_map.1 h
      exact List.mem_map.2 ⟨r, List.mem_cons_of_mem _ hr, hr'⟩
    unfold mergeLeft at ih ⊢
    simp only [List.flatMap_cons, ih habs']
    have : mergeRow (ts.filter fun r => r.trip_id ≠ t) st = mergeRow ts st := by
      unfold mergeRow
      rw [trips_filter_ne_eq ts st.trip_id t hst]
    rw [this]

theorem trip_of_mem_mergeRow (ts : List TripRow) (st : StopTimeRow) (r : TripStopRow)
    (h : r ∈ mergeRow ts st) : r.trip_id = st.trip_id := by
  unfold mergeRow at h
  split at h
  · simp at h
    rw [h]
  · obtain ⟨tr, _, hr⟩ := List.mem_map.1 h
    rw [← hr]

theorem mergeRow_ne_nil (ts : List TripRow) (st : StopTimeRow) : mergeRow ts st ≠ [] := by
  unfold mergeRow
  split
  · simp
  · rename_i hne
    rw [Ne, List.map_eq_nil_iff]
    intro h0
    rw [h0] at hne
    simp at hne

theorem mem_map_trip_mergeLeft (sts : List StopTimeRow) (ts : List TripRow) (x : Nat) :
    x ∈ (mergeLeft sts ts).map (·.trip_id) ↔ x ∈ sts.map (·.trip_id) := by
  unfold mergeLeft
  constructor
  · intro h
    obtain ⟨r, hr, hx⟩ := List.mem_map.1 h
    obtain ⟨st, hst, hr'⟩ := List.mem_flatMap.1 hr
    exact List.mem_map.2 ⟨st, hst, by rw [← hx, trip_of_mem_mergeRow ts st r hr']⟩
  · intro h
    obtain ⟨st, hst, hx⟩ := List.mem_map.1 h
    have hnn := mergeRow_ne_nil ts st
    refine List.mem_map.2 ⟨(mergeRow ts st).head hnn, ?_, ?_⟩
    · exact List.mem_flatMap.2 ⟨st, hst, List.head_mem hnn⟩
    · rw [trip_of_mem_mergeRow ts st _ (List.head_mem hnn), hx]

theorem groupByCol_fst_mem {α : Type} (col : α → Nat) (l : List α) (p : Nat × List α)
    (hp : p ∈ groupByCol col l) : p.1 ∈ l.map col := by
  unfold groupByCol at hp
  obtain ⟨t, ht, hp'⟩ := List.mem_map.1 hp
  rw [← hp']
  exact List.mem_dedup.1 ((List.perm_insertionSort (· ≤ ·) _).mem_iff.1 ht)

theorem map_col_sortByKey {α : Type} (key : α → Nat × Int) (col : α → Nat) (l : List α)
    (x : Nat) : x ∈ (sortByKey key l).map col ↔ x ∈ l.map col := by
  constructor <;> intro h
  · obtain ⟨r, hr, hx⟩ := List.mem_map.1 h
    exact List.mem_map.2 ⟨r, (mem_sortByKey key l r).1 hr, hx⟩
  · obtain ⟨r, hr, hx⟩ := List.mem_map.1 h
    exact List.mem_map.2 ⟨r, (mem_sortByKey key l r).2 hr, hx⟩

/-- C4 amended: a trip listed in `trips` with zero `stop_times` rows
contributes nothing to the result of `extract_segments` — deleting it from
the `trips` table leaves the output unchanged, and no group of the groupby
carries its `trip_id` (so no empty-tuple segment is counted for it). -/
theorem c4_amended_no_contribution (ts : List TripRow) (sts : List StopTimeRow)
    (rs : List RouteRow) (stp : Option StopsTable) (t : Nat)
    (_hmem : t ∈ ts.map (·.trip_id)) (habs : t ∉ sts.map (·.trip_id)) :
    extract_segments ⟨some (ts.filter fun r => r.trip_id ≠ t), some sts, some rs, stp⟩
        = extract_segments ⟨some ts, some sts, some rs, stp⟩
    ∧ ∀ p ∈ groupByCol (·.trip_id) (sortedMerged sts ts), p.1 ≠ t := by
  constructor
  · simp only [extract_segments, segCounterOf, sortedMerged,
      mergeLeft_drop_tripless sts ts t habs]
  · intro p hp hpt
    apply habs
    have h1 := groupByCol_fst_mem (·.trip_id) (sortedMerged sts ts) p hp
    rw [hpt] at h1
    exact (mem_map_trip_mergeLeft sts ts t).1
      ((map_col_sortByKey tsKey (·.trip_id) (mergeLeft sts ts) t).1 h1)

theorem c4_amended_witness :
    extract_segments ⟨some (([⟨1, 5⟩, ⟨2, 6⟩] : List TripRow).filter fun r => r.trip_id ≠ 1),
        some [⟨2, 30, 1⟩], some [], none⟩
      = extract_segments ⟨some [⟨1, 5⟩, ⟨2, 6⟩], some [⟨2, 30, 1⟩], some [], none⟩
    ∧ ∀ p ∈ groupByCol (·.trip_id) (sortedMerged [⟨2, 30, 1⟩] [⟨1, 5⟩, ⟨2, 6⟩]), p.1 ≠ 1 :=
  c4_amended_no_contribution [⟨1, 5⟩, ⟨2, 6⟩] [⟨2, 30, 1⟩] [] none 1 (by decide) (by decide)

/-! ## Per-trip segment order -/

/-- C2: in every loaded table set, the segment of a trip is the `stop_id`
projection of the trip's rows in the sorted frame; those rows carry their
`stop_sequence` values in ascending order and are exactly (a permutation of)
the trip's rows of the merged frame, so the segment lists the trip's stops
in ascending `stop_sequence` order. -/
theorem c2_segment_ascending (g : GTFSFiles) (ts : List TripRow) (sts : List StopTimeRow)
    (rs : List RouteRow)
    (ht : g.trips = some ts) (hst : g.stop_times = some sts) (hr : g.routes = some rs) :
    (extract_segments g).counts = segCounterOf sts ts
    ∧ ∀ t : Nat,
        tripSegment sts ts t
            = (((sortedMerged sts ts).filter fun r => r.trip_id = t).map (·.stop_id))
        ∧ List.Sorted (· ≤ ·)
            (((sortedMerged sts ts).filter fun r => r.trip_id = t).map (·.stop_sequence))
        ∧ ((sortedMerged sts ts).filter fun r => r.trip_id = t).Perm
            ((mergeLeft sts ts).filter fun r => r.trip_id = t) := by
  refine ⟨by simp only [extract_segments, ht, hst, hr], fun t => ⟨rfl, ?_, ?_⟩⟩
  · exact sorted_seq_filter_trip (mergeLeft sts ts) t
  · exact (sortByKey_perm tsKey (mergeLeft sts ts)).filter _

theorem c2_witness :
    tripSegment [⟨1, 100, 3⟩, ⟨1, 200, 1⟩, ⟨1, 300, 2⟩] [⟨1, 10⟩] 1 = [200, 300, 100]
    ∧ ((extract_segments ⟨some [⟨1, 10⟩], some [⟨1, 100, 3⟩, ⟨1, 200, 1⟩, ⟨1, 300, 2⟩],
          some [], none⟩).counts = segCounterOf [⟨1, 100, 3⟩, ⟨1, 200, 1⟩, ⟨1, 300, 2⟩] [⟨1, 10⟩]
        ∧ ∀ t : Nat,
            tripSegment [⟨1, 100, 3⟩, ⟨1, 200, 1⟩, ⟨1, 300, 2⟩] [⟨1, 10⟩] t
                = (((sortedMerged [⟨1, 100, 3⟩, ⟨1, 200, 1⟩, ⟨1, 300, 2⟩] [⟨1, 10⟩]).filter
                    fun r => r.trip_id = t).map (·.stop_id))
            ∧ List.Sorted (· ≤ ·)
                (((sortedMerged [⟨1, 100, 3⟩, ⟨1, 200, 1⟩, ⟨1, 300, 2⟩] [⟨1, 10⟩]).filter
                    fun r => r.trip_id = t).map (·.stop_sequence))
            ∧ (((sortedMerged [⟨1, 100, 3⟩, ⟨1, 200, 1⟩, ⟨1, 300, 2⟩] [⟨1, 10⟩]).filter
                    fun r => r.trip_id = t)).Perm
                ((mergeLeft [⟨1, 100, 3⟩, ⟨1, 200, 1⟩, ⟨1, 300, 2⟩] [⟨1, 10⟩]).filter
                    fun r => r.trip_id = t)) :=
  ⟨by decide,
   c2_segment_ascending ⟨some [⟨1, 10⟩], some [⟨1, 100, 3⟩, ⟨1, 200, 1⟩, ⟨1, 300, 2⟩],
      some [], none⟩ _ _ _ rfl rfl rfl⟩

/-! ## Counting segments -/

theorem ctrCount_incr (c : SegCounter) (k k' : Segment) :
    ctrCount (ctrIncr c k) k' = ctrCount c k' + (if k = k' then 1 else 0) := by
  induction c with
  | nil =>
    by_cases h : k = k' <;> simp [ctrIncr, ctrCount, h]
  | cons p rest ih =>
    obtain ⟨a, n⟩ := p
    by_cases hak : a = k
    · subst hak
      by_cases hk' : a = k' <;> simp [ctrIncr, ctrCount, hk']
    · by_cases hk' : a = k'
      · have hkk : k ≠ k' := fun h => hak (hk'.trans h.symm)
        simp [ctrIncr, ctrCount, hak, hk', hkk, Ne.symm hkk]
      · simp [ctrIncr, ctrCount, hak, hk', ih]

theorem ctrTotal_incr (c : SegCounter) (k : Segment) :
    ctrTotal (ctrIncr c k) = ctrTotal c + 1 := by
  induction c with
  | nil => rfl
  | cons p rest ih =>
    obtain ⟨a, n⟩ := p
    unfold ctrIncr
    by_cases hak : a = k
    · subst hak
      simp [ctrTotal]
      omega
    · rw [if_neg hak]
      simp [ctrTotal] at ih ⊢
      omega

/-- The groupby fold of `extract_segments`, re-expressed as a fold over the
sorted distinct trip ids, incrementing each trip's segment. -/
theorem segCounterOf_eq_foldl (sts : List StopTimeRow) (ts : List TripRow) :
    segCounterOf sts ts
      = (List.insertionSort (· ≤ ·) (((sortedMerged sts ts).map (·.trip_id)).dedup)).foldl
          (fun c t => ctrIncr c (tripSegment sts ts t)) [] := by
  unfold segCounterOf groupByCol
  rw [List.foldl_map]
  rfl

theorem ctrCount_foldl_incr (f : Nat → Segment) (s : Segment) :
    ∀ (ks : List Nat) (c0 : SegCounter),
      ctrCount (ks.foldl (fun c t => ctrIncr c (f t)) c0) s
        = ctrCount c0 s + (ks.filter fun t => f t = s).length := by
  intro ks
  induction ks with
  | nil => simp
  | cons t ks ih =>
    intro c0
    rw [List.foldl_cons, ih, ctrCount_incr]
    by_cases h : f t = s
    · simp [h]
      omega
    · simp [h]

theorem ctrTotal_foldl_incr (f : Nat → Segment) :
    ∀ (ks : List Nat) (c0 : SegCounter),
      ctrTotal (ks.foldl (fun c t => ctrIncr c (f t)) c0) = ctrTotal c0 + ks.length := by
  intro ks
  induction ks with
  | nil => simp
  | cons t ks ih =>
    intro c0
    rw [List.foldl_cons, ih, ctrTotal_incr, List.length_cons]
    omega

/-- Master counting lemma: the count a segment value receives equals the
number of distinct trip ids whose segment is that value. -/
theorem segCounterOf_count (sts : List StopTimeRow) (ts : List TripRow) (s : Segment) :
    ctrCount (segCounterOf sts ts) s
      = ((List.insertionSort (· ≤ ·) (((sortedMerged sts ts).map (·.trip_id)).dedup)).filter
          fun t => tripSegment sts ts t = s).length := by
  rw [segCounterOf_eq_foldl, ctrCount_foldl_incr]
  simp [ctrCount]

theorem segCounterOf_total (sts : List StopTimeRow) (ts : List TripRow) :
    ctrTotal (segCounterOf sts ts) = ((sts.map (·.trip_id)).dedup).length := by
  rw [segCounterOf_eq_foldl, ctrTotal_foldl_incr]
  have h1 : (List.insertionSort (· ≤ ·) (((sortedMerged sts ts).map (·.trip_id)).dedup)).length
      = (((sortedMerged sts ts).map (·.trip_id)).dedup).length :=
    List.length_insertionSort _ _
  have h2 : ((sortedMerged sts ts).map (·.trip_id)).dedup.Perm
      ((mergeLeft sts ts).map (·.trip_id)).dedup :=
    (((sortByKey_perm tsKey (mergeLeft sts ts)).map (·.trip_id))).dedup
  have h3 : ((mergeLeft sts ts).map (·.trip_id)).dedup.Perm ((sts.map (·.trip_id)).dedup) := by
    apply List.Subperm.antisymm
    · apply List.subperm_of_subset (List.nodup_dedup _)
      intro x hx
      exact List.mem_dedup.2
        ((mem_map_trip_mergeLeft sts ts x).1 (List.mem_dedup.1 hx))
    · apply List.subperm_of_subset (List.nodup_dedup _)
      intro x hx
      exact List.mem_dedup.2
        ((mem_map_trip_mergeLeft sts ts x).2 (List.mem_dedup.1 hx))
  have h0 : ctrTotal [] = 0 := rfl
  rw [h0, Nat.zero_add, h1, h2.length_eq, h3.length_eq]

/-- C10: for every loaded table set, the counts of the returned
`SegmentCounts` sum to the number of distinct `trip_id` values occurring in
`stop_times` (each distinct trip contributes exactly one increment). -/
theorem c10_total_is_distinct_trips (g : GTFSFiles) (ts : List TripRow)
    (sts : List StopTimeRow) (rs : List RouteRow)
    (ht : g.trips = some ts) (hst : g.stop_times = some sts) (hr : g.routes = some rs) :
    ctrTotal (extract_segments g).counts = ((sts.map (·.trip_id)).dedup).length := by
  simp only [extract_segments, ht, hst, hr]
  exact segCounterOf_total sts ts

theorem c10_witness :
    ctrTotal (extract_segments ⟨some [⟨1, 10⟩], some [⟨1, 100, 1⟩, ⟨1, 200, 2⟩, ⟨2, 100, 1⟩],
        some [], none⟩).counts
      = ((([⟨1, 100, 1⟩, ⟨1, 200, 2⟩, ⟨2, 100, 1⟩] : List StopTimeRow).map (·.trip_id)).dedup).length :=
  c10_total_is_distinct_trips _ _ _ _ rfl rfl rfl

/-! ## Segment identity: stop sequences only, never route ids -/

theorem two_le_length_of_mem {α : Type} (a b : α) (hne : a ≠ b) :
    ∀ l : List α, a ∈ l → b ∈ l → 2 ≤ l.length := by
  intro l
  induction l with
  | nil => intro ha _; exact absurd ha (List.not_mem_nil a)
  | cons x xs ih =>
    intro ha hb
    rw [List.length_cons]
    rcases List.mem_cons.1 ha with rfl | ha'
    · rcases List.mem_cons.1 hb with rfl | hb'
      · exact absurd rfl hne
      · have := List.length_pos_of_mem hb'
        omega
    · rcases List.mem_cons.1 hb with rfl | hb'
      · have := List.length_pos_of_mem ha'
        omega
      · have := ih ha' hb'
        omega

theorem mergeRow_map_core (ts ts' : List TripRow) (st : StopTimeRow)
    (h : ts.map (·.trip_id) = ts'.map (·.trip_id)) :
    (mergeRow ts st).map tsCore = (mergeRow ts' st).map tsCore := by
  have hf : (ts.filter fun t => t.trip_id = st.trip_id).length
      = (ts'.filter fun t => t.trip_id = st.trip_id).length := by
    have h2 := congrArg (List.filter fun x => x = st.trip_id) h
    rw [List.filter_map, List.filter_map] at h2
    have h3 := congrArg List.length h2
    rw [List.length_map, List.length_map] at h3
    exact h3
  unfold mergeRow
  by_cases hemp : (ts.filter fun t => t.trip_id = st.trip_id).isEmpty
  · have h0 : (ts.filter fun t => t.trip_id = st.trip_id) = [] := by
      simpa using hemp
    have h0' : (ts'.filter fun t => t.trip_id = st.trip_id) = [] := by
      rw [h0] at hf
      exact List.length_eq_zero.1 hf.symm
    rw [if_pos hemp, if_pos (by simp [h0'])]
  · have hemp' : ¬(ts'.filter fun t => t.trip_id = st.trip_id).isEmpty := by
      intro h0
      apply hemp
      have : (ts'.filter fun t => t.trip_id = st.trip_id) = [] := by simpa using h0
      rw [this] at hf
      simp [List.length_eq_zero.1 hf]
    rw [if_neg hemp, if_neg hemp', List.map_map, List.map_map]
    have e1 : (tsCore ∘ fun t : TripRow =>
        (⟨st.trip_id, st.stop_sequence, st.stop_id, some t.route_id⟩ : TripStopRow))
        = fun _ : TripRow => ((st.trip_id, st.stop_sequence), st.stop_id) := rfl
    rw [e1, List.map_const', List.map_const', hf]

theorem mergeLeft_map_core (sts : List StopTimeRow) (ts ts' : List TripRow)
    (h : ts.map (·.trip_id) = ts'.map (·.trip_id)) :
    (mergeLeft sts ts).map tsCore = (mergeLeft sts ts').map tsCore := by
  induction sts with
  | nil => rfl
  | cons st rest ih =>
    unfold mergeLeft at ih ⊢
    simp only [List.flatMap_cons, List.map_append, ih]
    rw [mergeRow_map_core ts ts' st h]

theorem filter_map_core_congr (p : TripStopRow → Bool)
    (hp : ∀ r r', tsCore r = tsCore r' → p r = p r') :
    ∀ (l l' : List TripStopRow), l.map tsCore = l'.map tsCore →
      (l.filter p).map tsCore = (l'.filter p).map tsCore := by
  intro l
  induction l with
  | nil =>
    intro l' h
    rw [List.map_eq_nil_iff.1 h.symm]
  | cons a l ih =>
    intro l' h
    cases l' with
    | nil => exact absurd h (by simp)
    | cons b l'' =>
      simp only [List.map_cons, List.cons.injEq] at h
      obtain ⟨hab, htl⟩ := h
      have hpb : p a = p b := hp a b hab
      by_cases hpa : p a = true
      · rw [List.filter_cons, List.filter_cons, if_pos hpa, if_pos (hpb ▸ hpa)]
        simp only [List.map_cons, hab, ih l'' htl]
      · rw [List.filter_cons, List.filter_cons, if_neg hpa, if_neg (hpb ▸ hpa)]
        exact ih l'' htl

theorem sortByKey_map_core (l l' : List TripStopRow) (h : l.map tsCore = l'.map tsCore) :
    (sortByKey tsKey l).map tsCore = (sortByKey tsKey l').map tsCore := by
  have hkeys : l.map tsKey = l'.map tsKey := by
    have h2 := congrArg (List.map Prod.fst) h
    rw [List.map_map, List.map_map] at h2
    exact h2
  unfold sortByKey
  rw [hkeys, List.map_flatMap, List.map_flatMap]
  apply List.flatMap_congr
  intro k _
  exact filter_map_core_congr (fun r => decide (tsKey r = k))
    (fun r r' hc => by
      have h3 : tsKey r = tsKey r' := congrArg Prod.fst hc
      show decide (tsKey r = k) = decide (tsKey r' = k)
      rw [h3])
    l l' h

theorem foldl_incr_congr (f g : Nat → Segment) (hfg : ∀ t, f t = g t) (K : List Nat)
    (c0 : SegCounter) :
    K.foldl (fun c t => ctrIncr c (f t)) c0 = K.foldl (fun c t => ctrIncr c (g t)) c0 := by
  have : (fun c t => ctrIncr c (f t)) = fun c t => ctrIncr c (g t) := by
    funext c t
    rw [hfg t]
  rw [this]

theorem segCounterOf_route_indep (sts : List StopTimeRow) (ts ts' : List TripRow)
    (h : ts'.map (·.trip_id) = ts.map (·.trip_id)) :
    segCounterOf sts ts' = segCounterOf sts ts := by
  have hm : (mergeLeft sts ts').map tsCore = (mergeLeft sts ts).map tsCore :=
    mergeLeft_map_core sts ts' ts h
  have hs : (sortedMerged sts ts').map tsCore = (sortedMerged sts ts).map tsCore :=
    sortByKey_map_core _ _ hm
  have htrip : (sortedMerged sts ts').map (·.trip_id) = (sortedMerged sts ts).map (·.trip_id) := by
    have h2 := congrArg (List.map fun c : (Nat × Int) × Nat => c.1.1) hs
    rw [List.map_map, List.map_map] at h2
    exact h2
  have hseg : ∀ t, tripSegment sts ts' t = tripSegment sts ts t := by
    intro t
    unfold tripSegment
    have hf := filter_map_core_congr (fun r => decide (r.trip_id = t))
      (fun r r' hc => by
        have h3 : r.trip_id = r'.trip_id := congrArg (fun c : (Nat × Int) × Nat => c.1.1) hc
        show decide (r.trip_id = t) = decide (r'.trip_id = t)
        rw [h3])
      _ _ hs
    have h2 := congrArg (List.map fun c : (Nat × Int) × Nat => c.2) hf
    rw [List.map_map, List.map_map] at h2
    exact h2
  rw [segCounterOf_eq_foldl, segCounterOf_eq_foldl, htrip]
  exact foldl_incr_congr _ _ hseg _ _

/-- C1: in every loaded table set, two distinct trips whose ordered
`stop_id` tuples are identical are counted under one shared segment key
(that key's count covers both, so it is at least 2), and the `route_id`
values of the trips table play no part: replacing them wholesale (keeping
the `trip_id` column) leaves the result of `extract_segments` unchanged. -/
theorem c1_shared_segment_key (g : GTFSFiles) (ts : List TripRow) (sts : List StopTimeRow)
    (rs : List RouteRow)
    (ht : g.trips = some ts) (hst : g.stop_times = some sts) (hr : g.routes = some rs)
    (t1 t2 : Nat) (h1 : t1 ∈ sts.map (·.trip_id)) (h2 : t2 ∈ sts.map (·.trip_id))
    (hne : t1 ≠ t2) (hseg : tripSegment sts ts t1 = tripSegment sts ts t2) :
    2 ≤ ctrCount (extract_segments g).counts (tripSegment sts ts t1)
    ∧ ∀ ts' : List TripRow, ts'.map (·.trip_id) = ts.map (·.trip_id) →
        extract_segments ⟨some ts', some sts, some rs, g.stops⟩ = extract_segments g := by
  constructor
  · simp only [extract_segments, ht, hst, hr]
    rw [segCounterOf_count]
    have hK : ∀ t : Nat, t ∈ sts.map (·.trip_id) →
        t ∈ List.insertionSort (· ≤ ·) (((sortedMerged sts ts).map (·.trip_id)).dedup) := by
      intro t hmem
      apply (List.perm_insertionSort (· ≤ ·) _).mem_iff.2
      apply List.mem_dedup.2
      exact (map_col_sortByKey tsKey (·.trip_id) (mergeLeft sts ts) t).2
        ((mem_map_trip_mergeLeft sts ts t).2 hmem)
    apply two_le_length_of_mem t1 t2 hne
    · exact List.mem_filter.2 ⟨hK t1 h1, by simp⟩
    · exact List.mem_filter.2 ⟨hK t2 h2, by simp [hseg]⟩
  · intro ts' hts'
    simp only [extract_segments, ht, hst, hr]
    rw [segCounterOf_route_indep sts ts ts' hts']

theorem c1_witness :
    2 ≤ ctrCount (extract_segments ⟨some [⟨1, 10⟩, ⟨2, 20⟩],
          some [⟨1, 100, 1⟩, ⟨1, 200, 2⟩, ⟨2, 100, 1⟩, ⟨2, 200, 2⟩], some [], none⟩).counts
        (tripSegment [⟨1, 100, 1⟩, ⟨1, 200, 2⟩, ⟨2, 100, 1⟩, ⟨2, 200, 2⟩] [⟨1, 10⟩, ⟨2, 20⟩] 1)
    ∧ ∀ ts' : List TripRow,
        ts'.map (·.trip_id) = ([⟨1, 10⟩, ⟨2, 20⟩] : List TripRow).map (·.trip_id) →
        extract_segments ⟨some ts',
            some [⟨1, 100, 1⟩, ⟨1, 200, 2⟩, ⟨2, 100, 1⟩, ⟨2, 200, 2⟩], some [], none⟩
          = extract_segments ⟨some [⟨1, 10⟩, ⟨2, 20⟩],
              some [⟨1, 100, 1⟩, ⟨1, 200, 2⟩, ⟨2, 100, 1⟩, ⟨2, 200, 2⟩], some [], none⟩ :=
  c1_shared_segment_key _ _ _ _ rfl rfl rfl 1 2 (by decide) (by decide) (by decide) (by decide)

/-! ## Order independence of segment aggregation -/

theorem key_of_mem_mergeRow (ts : List TripRow) (st : StopTimeRow) (r : TripStopRow)
    (h : r ∈ mergeRow ts st) : tsKey r = (st.trip_id, st.stop_sequence) := by
  unfold mergeRow at h
  split at h
  · simp at h
    rw [h]
    rfl
  · obtain ⟨tr, _, hr⟩ := List.mem_map.1 h
    rw [← hr]
    rfl

theorem mergeRow_filter_key (ts : List TripRow) (st : StopTimeRow) (k : Nat × Int) :
    (mergeRow ts st).filter (fun r => tsKey r = k)
      = if (st.trip_id, st.stop_sequence) = k then mergeRow ts st else [] := by
  by_cases hk : (st.trip_id, st.stop_sequence) = k
  · rw [if_pos hk]
    apply List.filter_eq_self.2
    intro r hr
    simp [key_of_mem_mergeRow ts st r hr, hk]
  · rw [if_neg hk]
    apply List.filter_eq_nil_iff.2
    intro r hr
    simp [key_of_mem_mergeRow ts st r hr, hk]

theorem mergeLeft_filter_key (sts : List StopTimeRow) (ts : List TripRow) (k : Nat × Int) :
    (mergeLeft sts ts).filter (fun r => tsKey r = k)
      = (sts.filter fun st => (st.trip_id, st.stop_sequence) = k).flatMap (mergeRow ts) := by
  induction sts with
  | nil => rfl
  | cons st rest ih =>
    unfold mergeLeft at ih ⊢
    simp only [List.flatMap_cons, List.filter_append, ih, List.filter_cons,
      mergeRow_filter_key]
    by_cases hk : (st.trip_id, st.stop_sequence) = k
    · rw [if_pos hk, if_pos (by simpa using hk), List.flatMap_cons]
    · rw [if_neg hk, if_neg (by simpa using hk), List.nil_append]

theorem sts_filter_key_eq (sts1 sts2 : List StopTimeRow)
    (h : ∀ t : Nat, sts1.filter (fun r => r.trip_id = t) = sts2.filter (fun r => r.trip_id = t))
    (k : Nat × Int) :
    sts1.filter (fun st => (st.trip_id, st.stop_sequence) = k)
      = sts2.filter (fun st => (st.trip_id, st.stop_sequence) = k) := by
  have e : ∀ sts : List StopTimeRow,
      sts.filter (fun st => (st.trip_id, st.stop_sequence) = k)
        = (sts.filter (fun r => r.trip_id = k.1)).filter (fun st => st.stop_sequence = k.2) := by
    intro sts
    rw [List.filter_filter]
    apply List.filter_congr
    intro a _
    by_cases h1 : a.trip_id = k.1 <;> by_cases h2 : a.stop_sequence = k.2 <;>
      simp [Prod.ext_iff, h1, h2]
  rw [e sts1, e sts2, h k.1]

theorem mergeLeft_perm_of_filters (sts1 sts2 : List StopTimeRow) (ts : List TripRow)
    (h : ∀ t : Nat, sts1.filter (fun r => r.trip_id = t) = sts2.filter (fun r => r.trip_id = t)) :
    (mergeLeft sts1 ts).Perm (mergeLeft sts2 ts) := by
  rw [List.perm_iff_count]
  intro r
  calc (mergeLeft sts1 ts).count r
      = ((mergeLeft sts1 ts).filter (fun x => tsKey x = tsKey r)).count r :=
        (List.count_filter (by simp)).symm
    _ = ((mergeLeft sts2 ts).filter (fun x => tsKey x = tsKey r)).count r := by
        rw [mergeLeft_filter_key, mergeLeft_filter_key,
          sts_filter_key_eq sts1 sts2 h (tsKey r)]
    _ = (mergeLeft sts2 ts).count r := List.count_filter (by simp)

theorem sortByKey_eq_of_classes (l1 l2 : List TripStopRow)
    (hperm : l1.Perm l2)
    (hcls : ∀ k : Nat × Int,
      l1.filter (fun r => tsKey r = k) = l2.filter (fun r => tsKey r = k)) :
    sortByKey tsKey l1 = sortByKey tsKey l2 := by
  unfold sortByKey
  have hK : List.insertionSort lexLe ((l1.map tsKey).dedup)
      = List.insertionSort lexLe ((l2.map tsKey).dedup) := by
    exact List.eq_of_perm_of_sorted
      (((List.perm_insertionSort lexLe _).trans ((hperm.map tsKey).dedup)).trans
        (List.perm_insertionSort lexLe _).symm)
      (List.sorted_insertionSort lexLe _)
      (List.sorted_insertionSort lexLe _)
  rw [hK]
  exact List.flatMap_congr fun k _ => hcls k

/-- C3: permuting the `stop_times` rows while keeping the relative order of
each trip's rows (stated as: every trip's filtered row list is unchanged)
leaves the result of `extract_segments` — counter contents and order
included — identical. -/
theorem c3_order_independent (ts : List TripRow) (rs : List RouteRow)
    (stp : Option StopsTable) (sts1 sts2 : List StopTimeRow)
    (h : ∀ t : Nat, sts1.filter (fun r => r.trip_id = t) = sts2.filter (fun r => r.trip_id = t)) :
    extract_segments ⟨some ts, some sts1, some rs, stp⟩
      = extract_segments ⟨some ts, some sts2, some rs, stp⟩ := by
  have hsorted : sortedMerged sts1 ts = sortedMerged sts2 ts := by
    unfold sortedMerged
    apply sortByKey_eq_of_classes
    · exact mergeLeft_perm_of_filters sts1 sts2 ts h
    · intro k
      rw [mergeLeft_filter_key, mergeLeft_filter_key, sts_filter_key_eq sts1 sts2 h k]
  have hctr : segCounterOf sts1 ts = segCounterOf sts2 ts := by
    unfold segCounterOf
    rw [hsorted]
  simp only [extract_segments, hctr]

theorem c3_witness :
    extract_segments ⟨some [⟨1, 10⟩, ⟨2, 20⟩],
        some [⟨1, 100, 1⟩, ⟨2, 300, 1⟩, ⟨1, 200, 2⟩], some [], none⟩
      = extract_segments ⟨some [⟨1, 10⟩, ⟨2, 20⟩],
          some [⟨2, 300, 1⟩, ⟨1, 100, 1⟩, ⟨1, 200, 2⟩], some [], none⟩ :=
  c3_order_independent [⟨1, 10⟩, ⟨2, 20⟩] [] none
    [⟨1, 100, 1⟩, ⟨2, 300, 1⟩, ⟨1, 200, 2⟩] [⟨2, 300, 1⟩, ⟨1, 100, 1⟩, ⟨1, 200, 2⟩]
    (by
      intro t
      by_cases h1 : (1 : Nat) = t <;> by_cases h2 : (2 : Nat) = t <;>
        first
        | omega
        | simp [List.filter_cons, h1, h2])
